import Mathlib

/-!
Verification of the unrealscript debugger bridge.

This file gives a shallow embedding, in Lean, of the core data structures and
algorithms of the debugger bridge: the 32-bit variable-reference encoding used
by the DAP adapter, the binary wire codec for commands and events, the
client-side debugger-state model (call stack, watches, breakpoint index), the
in-game interface service (watch-index assignment, watch-info suppression,
shutdown sentinel handling), and the watch-name parser.  Each definition is a
direct transcription of the corresponding C++ function; machine integers are
modelled as `Nat`/`Int` (with explicit two's-complement conversion where the
code reads or writes 32-bit values and explicit `% 2 ^ 64` where `size_t`
arithmetic can wrap), `std::string` as `List Char` on the client side and as
raw byte lists (`List Nat`) on the wire and in the host-facing service, and
code that can throw as `Option`-valued functions.
-/

namespace UnrealDebugger

/-- The three watch kinds (`src/adapter/debugger.h`, `enum class watch_kind`). -/
inductive watch_kind where
  | local
  | global
  | user
deriving DecidableEq

/-! ## Variable-reference encoding

From `src/adapter/adapter.cpp` (`namespace util`).  A 32-bit variable
reference packs the watch kind (bits 29-30), the frame index (bits 22-28) and
the variable index plus one (bits 0-21).  All values handled here are
non-negative and below `2 ^ 31`, so the C `int` arithmetic is modelled on
`Nat`; the bitwise complement `~` of the C code is modelled as xor against the
32-bit all-ones pattern. -/

namespace util

def variable_encoding_user_bit : Nat := 0x40000000

def variable_encoding_global_bit : Nat := 0x20000000

def variable_encoding_frame_shift : Nat := 22

def variable_encoding_max_frame : Nat := 1 <<< 7

def variable_encoding_max_var : Nat := (1 <<< 22) - 1

/-- The bit pattern or-ed into an encoding for each watch kind (the `switch`
at the end of `encode_variable_reference`). -/
def kind_bits : watch_kind → Nat
  | .local => 0
  | .global => variable_encoding_global_bit
  | .user => variable_encoding_user_bit

/-- `encode_variable_reference` (`src/adapter/adapter.cpp`).  The function
throws `std::runtime_error` when the frame index reaches
`variable_encoding_max_frame` or the variable index exceeds
`variable_encoding_max_var`; the throwing paths are modelled as `none`. -/
def encode_variable_reference (frame_index variable_index : Nat) (kind : watch_kind) :
    Option Nat :=
  if variable_encoding_max_frame ≤ frame_index then none
  else if variable_encoding_max_var < variable_index then none
  else some (((variable_index + 1) ||| (frame_index <<< variable_encoding_frame_shift)) |||
    kind_bits kind)

/-- `decode_watch_kind` (`src/adapter/adapter.cpp`). -/
def decode_watch_kind (variable_reference : Nat) : watch_kind :=
  if variable_reference &&& variable_encoding_user_bit ≠ 0 then .user
  else if variable_reference &&& variable_encoding_global_bit ≠ 0 then .global
  else .local

/-- 32-bit bitwise complement: the bit pattern of `~x` for a 32-bit `int`. -/
def int32_not (x : Nat) : Nat := 0xFFFFFFFF ^^^ x

/-- `decode_variable_reference` (`src/adapter/adapter.cpp`).  Returns
`(frame_index, variable_index, kind)`; the variable index is an `Int` because
the C code computes `(masked & variable_mask) - 1` in `int` arithmetic, which
is negative when the masked low bits are zero. -/
def decode_variable_reference (variable_reference : Nat) : Nat × Int × watch_kind :=
  let variable_mask : Nat := (1 <<< variable_encoding_frame_shift) - 1
  let kind := decode_watch_kind variable_reference
  let v := variable_reference &&&
    int32_not (variable_encoding_global_bit ||| variable_encoding_user_bit)
  let variable_index : Int := ((v &&& variable_mask : Nat) : Int) - 1
  let frame_index := v >>> variable_encoding_frame_shift
  (frame_index, variable_index, kind)

theorem lor_mul_two_pow : ∀ (k a b : Nat), a < 2 ^ k → a ||| b * 2 ^ k = a + b * 2 ^ k := by
  intro k
  induction k with
  | zero =>
    intro a b h
    interval_cases a
    simp
  | succ k ih =>
    intro a b h
    have hb : Nat.bit false (b * 2 ^ k) = b * 2 ^ (k + 1) := by
      simp [Nat.bit_val]
      ring
    have hdiv : a.div2 < 2 ^ k := by
      rw [Nat.div2_val]
      omega
    calc a ||| b * 2 ^ (k + 1)
        = Nat.bit a.bodd a.div2 ||| Nat.bit false (b * 2 ^ k) := by
          rw [Nat.bit_decomp, hb]
      _ = Nat.bit (a.bodd || false) (a.div2 ||| b * 2 ^ k) := Nat.lor_bit _ _ _ _
      _ = Nat.bit a.bodd (a.div2 + b * 2 ^ k) := by rw [Bool.or_false, ih a.div2 b hdiv]
      _ = a + b * 2 ^ (k + 1) := by
          rw [Nat.bit_val]
          have h2 := Nat.bodd_add_div2 a
          rw [Nat.div2_val] at h2 ⊢
          ring_nf
          omega

/-- Arithmetic form of the encoding for in-range inputs: the three or-ed
fields are disjoint, so the encoding is just their sum. -/
theorem encode_eq_arith (f x : Nat) (k : watch_kind) (hf : f < 128) (hx : x + 1 < 2 ^ 22) :
    encode_variable_reference f x k = some (x + 1 + f * 2 ^ 22 + kind_bits k) := by
  have h1 : (x + 1) ||| (f <<< 22) = x + 1 + f * 2 ^ 22 := by
    rw [Nat.shiftLeft_eq]
    exact lor_mul_two_pow 22 (x + 1) f hx
  have h2 : x + 1 + f * 2 ^ 22 < 2 ^ 29 := by
    have : f * 2 ^ 22 ≤ 127 * 2 ^ 22 := by
      have := Nat.mul_le_mul_right (2 ^ 22) (Nat.le_of_lt_succ hf)
      simpa using this
    omega
  unfold encode_variable_reference
  rw [if_neg (by unfold variable_encoding_max_frame; omega),
      if_neg (by unfold variable_encoding_max_var; omega)]
  unfold variable_encoding_frame_shift
  rw [h1]
  have hkb : ∃ c, kind_bits k = c * 2 ^ 29 := by
    cases k
    · exact ⟨0, by simp [kind_bits]⟩
    · exact ⟨1, by norm_num [kind_bits, variable_encoding_global_bit]⟩
    · exact ⟨2, by norm_num [kind_bits, variable_encoding_user_bit]⟩
  obtain ⟨c, hc⟩ := hkb
  rw [hc, lor_mul_two_pow 29 _ c h2]

theorem testBit_add_kind_bits (A kb i : Nat)
    (hkb : kb = 0 ∨ kb = 2 ^ 29 ∨ kb = 2 ^ 30) (hi : i < 29) :
    (A + kb).testBit i = A.testBit i := by
  rcases hkb with h | h | h
  · simp [h]
  · rw [h, Nat.add_comm, Nat.testBit_two_pow_add_gt (by omega)]
  · rw [h, Nat.add_comm, Nat.testBit_two_pow_add_gt (by omega)]

theorem mask_value :
    int32_not (variable_encoding_global_bit ||| variable_encoding_user_bit) =
      2 ^ 31 + (2 ^ 29 - 1) := by
  decide

theorem mask_clears_kind_bits (A kb : Nat) (hA : A < 2 ^ 29)
    (hkb : kb = 0 ∨ kb = 2 ^ 29 ∨ kb = 2 ^ 30) :
    (A + kb) &&& int32_not (variable_encoding_global_bit ||| variable_encoding_user_bit) = A := by
  rw [mask_value]
  apply Nat.eq_of_testBit_eq
  intro i
  rw [Nat.testBit_land]
  by_cases h29 : i < 29
  · rw [Nat.testBit_two_pow_add_gt (by omega), Nat.testBit_two_pow_sub_one,
      decide_eq_true (by omega : i < 29), Bool.and_true]
    exact testBit_add_kind_bits A kb i hkb h29
  · have hAbit : A.testBit i = false :=
      Nat.testBit_eq_false_of_lt (lt_of_lt_of_le hA (Nat.pow_le_pow_right (by omega) (by omega)))
    by_cases h31 : i < 31
    · rw [Nat.testBit_two_pow_add_gt (by omega), Nat.testBit_two_pow_sub_one,
        decide_eq_false (by omega : ¬ i < 29)]
      simp [hAbit]
    · have hv : A + kb < 2 ^ 31 := by
        rcases hkb with h | h | h <;> subst h <;> norm_num <;> omega
      rw [Nat.testBit_eq_false_of_lt
        (lt_of_lt_of_le hv (Nat.pow_le_pow_right (by omega) (by omega)))]
      simp [hAbit]

theorem decode_kind_of_arith (A : Nat) (k : watch_kind) (hA1 : 1 ≤ A) (hA : A < 2 ^ 29) :
    decode_watch_kind (A + kind_bits k) = k := by
  unfold decode_watch_kind
  cases k
  · have h30 : (A + kind_bits watch_kind.local).testBit 30 = false := by
      apply Nat.testBit_eq_false_of_lt
      simp only [kind_bits]
      omega
    have h29 : (A + kind_bits watch_kind.local).testBit 29 = false := by
      apply Nat.testBit_eq_false_of_lt
      simp only [kind_bits]
      omega
    rw [if_neg, if_neg]
    · show ¬ _ &&& variable_encoding_global_bit ≠ 0
      rw [show variable_encoding_global_bit = 2 ^ 29 by decide, Nat.and_two_pow, h29]
      simp
    · show ¬ _ &&& variable_encoding_user_bit ≠ 0
      rw [show variable_encoding_user_bit = 2 ^ 30 by decide, Nat.and_two_pow, h30]
      simp
  · have h30 : (A + kind_bits watch_kind.global).testBit 30 = false := by
      apply Nat.testBit_eq_false_of_lt
      simp only [kind_bits]
      rw [show variable_encoding_global_bit = 2 ^ 29 by decide]
      omega
    have h29 : (A + kind_bits watch_kind.global).testBit 29 = true := by
      simp only [kind_bits]
      rw [show variable_encoding_global_bit = 2 ^ 29 by decide, Nat.add_comm,
        Nat.testBit_two_pow_add_eq, Nat.testBit_eq_false_of_lt hA]
      rfl
    rw [if_neg, if_pos]
    · rw [show variable_encoding_global_bit = 2 ^ 29 by decide, Nat.and_two_pow, h29]
      norm_num
    · rw [show variable_encoding_user_bit = 2 ^ 30 by decide, Nat.and_two_pow, h30]
      simp
  · have h30 : (A + kind_bits watch_kind.user).testBit 30 = true := by
      simp only [kind_bits]
      rw [show variable_encoding_user_bit = 2 ^ 30 by decide, Nat.add_comm,
        Nat.testBit_two_pow_add_eq, Nat.testBit_eq_false_of_lt (by omega)]
      rfl
    rw [if_pos]
    rw [show variable_encoding_user_bit = 2 ^ 30 by decide, Nat.and_two_pow, h30]
    norm_num

theorem decode_of_arith (f x : Nat) (k : watch_kind) (hf : f < 128) (hx : x + 1 < 2 ^ 22) :
    decode_variable_reference (x + 1 + f * 2 ^ 22 + kind_bits k) = (f, (x : Int), k) := by
  have hA : x + 1 + f * 2 ^ 22 < 2 ^ 29 := by
    have : f * 2 ^ 22 ≤ 127 * 2 ^ 22 := by
      have := Nat.mul_le_mul_right (2 ^ 22) (Nat.le_of_lt_succ hf)
      simpa using this
    omega
  have hkb : kind_bits k = 0 ∨ kind_bits k = 2 ^ 29 ∨ kind_bits k = 2 ^ 30 := by
    cases k
    · exact Or.inl (by decide)
    · exact Or.inr (Or.inl (by decide))
    · exact Or.inr (Or.inr (by decide))
  have hmask : (1 <<< variable_encoding_frame_shift) - 1 = 2 ^ 22 - 1 := by decide
  simp only [decode_variable_reference, hmask]
  rw [mask_clears_kind_bits _ _ hA hkb, decode_kind_of_arith _ k (by omega) hA]
  rw [Nat.and_pow_two_sub_one_eq_mod, Nat.shiftRight_eq_div_pow,
    show variable_encoding_frame_shift = 22 from rfl]
  have hmod : (x + 1 + f * 2 ^ 22) % 2 ^ 22 = x + 1 := by omega
  have hdiv : (x + 1 + f * 2 ^ 22) / 2 ^ 22 = f := by omega
  rw [hmod, hdiv]
  norm_num

/-- Claim C1: for every frame index in `[0, 127]`, variable index in
`[0, 4194302]` and watch kind, decoding the encoded variable reference
returns exactly the triple `(frame, index, kind)`. -/
theorem variable_reference_round_trip (f x : Nat) (k : watch_kind)
    (hf : f ≤ 127) (hx : x ≤ 4194302) :
    (encode_variable_reference f x k).map decode_variable_reference =
      some (f, (x : Int), k) := by
  rw [encode_eq_arith f x k (by omega) (by omega), Option.map_some',
    decode_of_arith f x k (by omega) (by omega)]

/-- Witness for C1 at the extreme in-range corner. -/
theorem variable_reference_round_trip_witness :
    (127 : Nat) ≤ 127 ∧ (4194302 : Nat) ≤ 4194302 ∧
      (encode_variable_reference 127 4194302 watch_kind.user).map decode_variable_reference =
        some (127, (4194302 : Int), watch_kind.user) :=
  ⟨by decide, by decide,
    variable_reference_round_trip 127 4194302 watch_kind.user (by decide) (by decide)⟩

/-- Claim C2 (failing input): the boundary variable index `4194303` is
accepted by `encode_variable_reference` without raising, but the produced
reference `2 ^ 22` decodes to frame index `1` and the negative variable
index `-1` instead of the encoded pair. -/
theorem variable_reference_boundary_overflow :
    encode_variable_reference 0 4194303 watch_kind.local = some 4194304 ∧
      decode_variable_reference 4194304 = (1, (-1 : Int), watch_kind.local) := by
  constructor
  · decide
  · decide

end util

/-! ## Client-side debugger state

From `src/adapter/debugger.h` and `src/adapter/debugger.cpp`.  Client strings
are `std::string`s manipulated with `find`/`substr`; they are modelled as
`List Char`, with `find` returning the `size_t` value `npos` on failure and
`substr` positions computed modulo `2 ^ 64` exactly as the unsigned C++
arithmetic does. -/

namespace client

/-- `std::string::npos`. -/
def npos : Nat := 2 ^ 64 - 1

/-- Index of the first occurrence of a character, if any. -/
def find_char (c : Char) : List Char → Option Nat
  | [] => none
  | x :: xs => if x = c then some 0 else (find_char c xs).map (· + 1)

/-- `std::string::find`: first index of `c`, or `npos`. -/
def find_result (c : Char) (s : List Char) : Nat := (find_char c s).getD npos

def unknown_name : List Char := "<unknown name>".toList

def unknown_type : List Char := "<unknown type>".toList

/-- `split_watch_name` (`src/adapter/debugger.cpp`).  The C++ stores
`full_name.find('(')` in a `size_t`, so a missing parenthesis yields `npos`,
which passes the `idx >= 2` test; `full_name.substr(idx + 2)` is then
evaluated at the wrapped position `(npos + 2) % 2 ^ 64 = 1`, and the inner
`comma >= 0` test is always true for a `size_t`.  `none` models the
`std::out_of_range` exception `substr` throws when its position exceeds the
string length; `substr`'s count argument is clamped to the remaining
length. -/
def split_watch_name (full_name : List Char) : Option (List Char × List Char) :=
  let idx := find_result '(' full_name
  if 2 ≤ idx then
    let name := full_name.take (idx - 1)
    let pos := (idx + 2) % 2 ^ 64
    if full_name.length < pos then none
    else
      let rest := full_name.drop pos
      let comma := find_result ',' rest
      some (name, rest.take comma)
  else
    some (unknown_name, unknown_type)

/-- One watch entry (`struct watch_data`, `src/adapter/debugger.h`). -/
structure watch_data where
  name : List Char
  type : List Char
  value : List Char
  parent : Int
  children : List Int := []
deriving DecidableEq

/-- The synthetic root node inserted at index 0 of every watch list
(`emplace_back("ROOT", "N/A", "N/A", -1)`). -/
def root_watch : watch_data :=
  { name := "ROOT".toList, type := "N/A".toList, value := "N/A".toList, parent := -1 }

/-- `struct stack_frame` (`src/adapter/debugger.h`), with its in-class
default initialisers. -/
structure stack_frame where
  class_name : List Char := []
  line_number : Int := 0
  function_name : List Char := []
  local_watches : List watch_data := []
  global_watches : List watch_data := []
  user_watches : List watch_data := []
  fetched_watches : Bool := false
deriving DecidableEq

/-- `stack_frame::get_watches`. -/
def stack_frame.get_watches (f : stack_frame) : watch_kind → List watch_data
  | .local => f.local_watches
  | .global => f.global_watches
  | .user => f.user_watches

/-- Writing through the reference returned by `get_watches`. -/
def stack_frame.set_watches (f : stack_frame) (k : watch_kind) (l : List watch_data) :
    stack_frame :=
  match k with
  | .local => { f with local_watches := l }
  | .global => { f with global_watches := l }
  | .user => { f with user_watches := l }

/-- The client operational-state enum (`debugger_state::state`); `busy` is the
state set by the resume handlers in `src/adapter/adapter.cpp`. -/
inductive op_state where
  | normal
  | busy
  | waiting_for_frame_line
  | waiting_for_frame_watches
  | waiting_for_user_watches
  | waiting_for_add_breakpoint
deriving DecidableEq

/-- `class debugger_state` (`src/adapter/debugger.h`): the constructor
resizes the call stack to one (default) frame; the global instance is
zero-initialised, so the operational state starts `normal`. -/
structure debugger_state where
  callstack : List stack_frame := [{}]
  current_frame : Nat := 0
  state : op_state := .normal
  watch_lock_depth : Int := 0
  breakpoints : List (List Char × List Int) := []
deriving DecidableEq

/-- `callstack_[i] = f(callstack_[i])`. -/
def modify_frame (s : debugger_state) (i : Nat) (f : stack_frame → stack_frame) :
    debugger_state :=
  { s with callstack := s.callstack.modify f i }

/-- `debugger_state::clear_watch`. -/
def debugger_state.clear_watch (s : debugger_state) (kind : watch_kind) : debugger_state :=
  modify_frame s s.current_frame (fun fr => fr.set_watches kind [root_watch])

/-- `debugger_state::add_watch`.  The watch list receives a root element if it
was empty, then the parsed entry is appended (the code asserts
`list.size() == index`); a parent index `>= 1` links the entry into that
parent's children, and parent `-1` links it under the root.  `none`
propagates the `std::out_of_range` escape of `split_watch_name`. -/
def debugger_state.add_watch (s : debugger_state) (kind : watch_kind) (index parent : Int)
    (full_name value : List Char) : Option debugger_state :=
  (split_watch_name full_name).map (fun nt =>
    modify_frame s s.current_frame (fun fr =>
      let list := fr.get_watches kind
      let list := if list.isEmpty then [root_watch] else list
      let list := list ++ [{ name := nt.1, type := nt.2, value := value, parent := parent }]
      let list :=
        if 1 ≤ parent then
          list.modify (fun w => { w with children := w.children ++ [index] }) parent.toNat
        else if parent = -1 then
          list.modify (fun w => { w with children := w.children ++ [index] }) 0
        else list
      fr.set_watches kind list))

/-- `debugger_state::lock_list`. -/
def debugger_state.lock_list (s : debugger_state) (_kind : watch_kind) : debugger_state :=
  { s with watch_lock_depth := s.watch_lock_depth + 1 }

/-- `debugger_state::clear_callstack`: `callstack_.resize(1)`.  A resize of an
empty vector grows it with one default frame. -/
def debugger_state.clear_callstack (s : debugger_state) : debugger_state :=
  { s with callstack := match s.callstack with
      | [] => [{}]
      | x :: _ => [x] }

/-- `debugger_state::add_callstack`.  The `idx >= 0` test on the `size_t`
`find(' ')` result is always true, so the prefix up to the first space is
always stripped (with `substr((npos + 1) % 2 ^ 64) = substr(0)` when there is
no space); the `idx > 0` test on `find(':')` is false only when the colon is
the first character, and when there is no colon at all both the class name
(`substr(0, npos)`, clamped) and the function name
(`substr((npos + 1) % 2 ^ 64) = substr(0)`) are the whole remainder. -/
def debugger_state.add_callstack (s : debugger_state) (full_name : List Char) :
    debugger_state :=
  let idx := find_result ' ' full_name
  let name := full_name.drop ((idx + 1) % 2 ^ 64)
  let idx2 := find_result ':' name
  let class_name := if 0 < idx2 then name.take idx2 else name
  let function_name := if 0 < idx2 then name.drop ((idx2 + 1) % 2 ^ 64) else []
  { s with callstack := s.callstack ++
      [{ class_name := class_name, function_name := function_name }] }

/-- Replace the first element of a frame list. -/
def modify_head (f : stack_frame → stack_frame) : List stack_frame → List stack_frame
  | [] => []
  | x :: xs => f x :: xs

/-- `debugger_state::finalize_callstack`: copy the line number of the bottom
frame into the top frame, move the bottom frame's local/global watch lists
into the top frame, reverse the stack, pop the (now duplicated) last element
and mark the new first element as having fetched watches.  The swap also
hands the top frame's (empty) watch lists to the bottom frame, but that
element is the one popped right after the reverse (or is the very same
element when the stack is a singleton), so the assignment is dropped here.
On a singleton stack the C++ pops the only element and then writes
`callstack_[0]` out of bounds; the model leaves the resulting empty stack
as is. -/
def debugger_state.finalize_callstack (s : debugger_state) : debugger_state :=
  match s.callstack with
  | [] => s
  | bottom :: tail =>
    let top := (bottom :: tail).getLast (by simp)
    let top' := { top with
      line_number := bottom.line_number,
      local_watches := bottom.local_watches,
      global_watches := bottom.global_watches }
    let stack := (((bottom :: tail).set tail.length top').reverse).dropLast
    { s with callstack := modify_head (fun fr => { fr with fetched_watches := true }) stack }

/-- `boost::algorithm::to_upper_copy`. -/
def to_upper (s : List Char) : List Char := s.map Char.toUpper

/-- The map update performed by `debugger_state::add_breakpoint` on the
(already upper-cased) key: append the line to the class's list unless it is
already present, or bind the key to a fresh singleton list. -/
def add_breakpoint_map (upcase : List Char) (line : Int) :
    List (List Char × List Int) → List (List Char × List Int)
  | [] => [(upcase, [line])]
  | (k, v) :: rest =>
    if k = upcase then
      (if line ∈ v then (k, v) else (k, v ++ [line])) :: rest
    else (k, v) :: add_breakpoint_map upcase line rest

/-- `debugger_state::add_breakpoint`. -/
def debugger_state.add_breakpoint (s : debugger_state) (class_name : List Char) (line : Int) :
    debugger_state :=
  { s with breakpoints := add_breakpoint_map (to_upper class_name) line s.breakpoints }

/-- `breakpoints_.find`. -/
def lookup_bp (key : List Char) : List (List Char × List Int) → Option (List Int)
  | [] => none
  | (k, v) :: rest => if k = key then some v else lookup_bp key rest

/-- `debugger_state::get_breakpoints`. -/
def debugger_state.get_breakpoints (s : debugger_state) (class_name : List Char) :
    Option (List Int) :=
  lookup_bp (to_upper class_name) s.breakpoints

/-- Fired-state of the adapter's one-shot signals (`src/adapter/signals.h`);
every signal starts unfired. -/
structure signal_state where
  line_received : Bool := false
  watches_received : Bool := false
  breakpoint_hit : Bool := false
  user_watches_received : Bool := false
  breakpoint_added : Bool := false
deriving DecidableEq

/-- The client process state visible to the event handlers: the global
`debugger` object together with the global signals. -/
structure client_state where
  dbg : debugger_state := {}
  signals : signal_state := {}
deriving DecidableEq

/-- A deserialized watch inside an `unlock_list` event (`struct watch`,
`src/common/events.h`), as consumed by the client's `unlock_list` handler. -/
structure event_watch where
  parent_index : Int
  assigned_index : Int
  name : List Char
  value : List Char
deriving DecidableEq

/-- The event kinds dispatched on the client (`dispatch_event`,
`src/adapter/events.cpp`), with the payload fields their handlers read. -/
inductive client_event where
  | show_dll_form
  | build_hierarchy
  | clear_hierarchy
  | add_class_to_hierarchy (name : List Char)
  | lock_list (kind : watch_kind)
  | unlock_list (kind : watch_kind) (watch_info : List event_watch)
  | clear_a_watch (kind : watch_kind)
  | add_breakpoint (class_name : List Char) (line : Int)
  | remove_breakpoint (class_name : List Char) (line : Int)
  | editor_load_class (class_name : List Char)
  | editor_goto_line (line : Int) (highlight : Bool)
  | add_line_to_log (text : List Char)
  | call_stack_clear
  | call_stack_add (entry : List Char)
  | set_current_object_name (object_name : List Char)
  | terminated

/-- `debugger_state::unlock_list` together with the signals it fires when the
lock depth returns to zero. -/
def unlock_list_state (c : client_state) (_kind : watch_kind) : client_state :=
  let depth := c.dbg.watch_lock_depth - 1
  let c := { c with dbg := { c.dbg with watch_lock_depth := depth } }
  if depth = 0 then
    if c.dbg.state = .waiting_for_frame_watches then
      { c with signals := { c.signals with watches_received := true } }
    else if c.dbg.state = .waiting_for_user_watches then
      { c with signals := { c.signals with user_watches_received := true } }
    else c
  else c

/-- `breakpoint_hit` (`src/adapter/adapter.cpp`): downgrade a `busy` state
and fire the `breakpoint_hit` signal (the DAP `stopped` event is outside this
model). -/
def breakpoint_hit_state (c : client_state) : client_state :=
  let dbg := if c.dbg.state = .busy then { c.dbg with state := op_state.normal } else c.dbg
  { c with dbg := dbg, signals := { c.signals with breakpoint_hit := true } }

/-- `dispatch_event` and the individual handlers of `src/adapter/events.cpp`.
The handlers for the hierarchy events, `add_breakpoint`, `remove_breakpoint`
and `terminated` have empty bodies (or only call into the DAP session), and
`add_line_to_log` only forwards the text to the console. -/
def dispatch_event (ev : client_event) (c : client_state) : Option client_state :=
  match ev with
  | .show_dll_form =>
    some (breakpoint_hit_state { c with dbg := c.dbg.finalize_callstack })
  | .build_hierarchy => some c
  | .clear_hierarchy => some c
  | .add_class_to_hierarchy _ => some c
  | .lock_list kind => some { c with dbg := c.dbg.lock_list kind }
  | .unlock_list kind ws =>
    (ws.foldlM (fun (st : debugger_state) (w : event_watch) =>
      st.add_watch kind w.assigned_index w.parent_index w.name w.value) c.dbg).map
      (fun dbg => unlock_list_state { c with dbg := dbg } kind)
  | .clear_a_watch kind => some { c with dbg := c.dbg.clear_watch kind }
  | .add_breakpoint _ _ => some c
  | .remove_breakpoint _ _ => some c
  | .editor_load_class name =>
    some { c with dbg := (modify_frame c.dbg c.dbg.current_frame
      (fun fr => { fr with class_name := name })) }
  | .editor_goto_line line _ =>
    some { c with dbg := (modify_frame c.dbg c.dbg.current_frame
      (fun fr => { fr with line_number := line })) }
  | .add_line_to_log _ => some c
  | .call_stack_clear => some { c with dbg := c.dbg.clear_callstack }
  | .call_stack_add entry => some { c with dbg := c.dbg.add_callstack entry }
  | .set_current_object_name _ =>
    if c.dbg.state = .waiting_for_frame_line then
      some { c with signals := { c.signals with line_received := true } }
    else some c
  | .terminated => some c

/-- Dispatch of a whole event trace, in order. -/
def run_events (evs : List client_event) (c : client_state) : Option client_state :=
  evs.foldlM (fun st ev => dispatch_event ev st) c

/-- The local and global watches received in the C3 scenario, as they arrive
in the `unlock_list` batches. -/
def sample_local_watch : event_watch :=
  { parent_index := -1, assigned_index := 1, name := "x ( Int, 0x1234 )".toList,
    value := "5".toList }

def sample_global_watch : event_watch :=
  { parent_index := -1, assigned_index := 1, name := "g ( Bool, 0xBEEF )".toList,
    value := "true".toList }

/-- The expected innermost frame after finalisation in the C3 scenario. -/
def finalized_frame0 : stack_frame :=
  { class_name := "P.A".toList, line_number := 42, function_name := "foo".toList,
    local_watches :=
      [ { root_watch with children := [1] },
        { name := "x".toList, type := "Int".toList, value := "5".toList, parent := -1 } ],
    global_watches :=
      [ { root_watch with children := [1] },
        { name := "g".toList, type := "Bool".toList, value := "true".toList, parent := -1 } ],
    fetched_watches := true }

/-- The expected outer frame after finalisation in the C3 scenario. -/
def finalized_frame1 : stack_frame :=
  { class_name := "P.B".toList, function_name := "bar".toList }

/-- Claim C3: the break sequence `editor_load_class("A")`,
`editor_goto_line(42)`, the local and global watch batches,
`call_stack_clear`, `call_stack_add("Function P.B:bar")`,
`call_stack_add("Function P.A:foo")`, `show_dll_form` leaves
`callstack[0] = {class "P.A", function "foo", line 42}` carrying the received
local and global watches with `fetched_watches = true`, and
`callstack[1] = {class "P.B", function "bar", line 0}` with empty watch
lists. -/
theorem callstack_finalisation_scenario :
    run_events
      [ .editor_load_class "A".toList,
        .editor_goto_line 42 true,
        .lock_list .local,
        .unlock_list .local [sample_local_watch],
        .lock_list .global,
        .unlock_list .global [sample_global_watch],
        .call_stack_clear,
        .call_stack_add "Function P.B:bar".toList,
        .call_stack_add "Function P.A:foo".toList,
        .show_dll_form ] {} =
    some { dbg := { callstack := [finalized_frame0, finalized_frame1] },
           signals := { breakpoint_hit := true } } := by
  rfl

/-- Claim C6 (divergence evidence): the client's handler for the
`add_breakpoint` confirmation event is empty, so dispatching the event leaves
the whole client state - the breakpoint index and every signal, in particular
`breakpoint_added` - unchanged.  Nothing ever fires the `breakpoint_added`
signal that `set_breakpoints_handler` waits on after each sent
`add_breakpoint` command. -/
theorem add_breakpoint_event_is_noop (c : client_state) (cls : List Char) (l : Int) :
    dispatch_event (.add_breakpoint cls l) c = some c := by
  simp [dispatch_event]

/-- One call-stack operation as performed by the client's event handlers.
`finalize` carries the guard under which the host's break sequence invokes it:
`call_stack_clear` leaves one entry and at least one `call_stack_add` arrives
before `show_dll_form`, so the stack holds at least two entries. -/
inductive cs_step : debugger_state → debugger_state → Prop
  | clear (s : debugger_state) : cs_step s s.clear_callstack
  | add (s : debugger_state) (name : List Char) : cs_step s (s.add_callstack name)
  | finalize (s : debugger_state) (h : 2 ≤ s.callstack.length) :
      cs_step s s.finalize_callstack

theorem clear_callstack_length (s : debugger_state) :
    s.clear_callstack.callstack.length = 1 := by
  obtain ⟨cs, cf, st, d, bp⟩ := s
  cases cs <;> rfl

theorem add_callstack_length (s : debugger_state) (n : List Char) :
    (s.add_callstack n).callstack.length = s.callstack.length + 1 := by
  simp [debugger_state.add_callstack]

theorem modify_head_length (f : stack_frame → stack_frame) (l : List stack_frame) :
    (modify_head f l).length = l.length := by
  cases l <;> rfl

theorem finalize_callstack_length (s : debugger_state) (h : s.callstack ≠ []) :
    s.finalize_callstack.callstack.length = s.callstack.length - 1 := by
  obtain ⟨cs, cf, st, d, bp⟩ := s
  match cs with
  | [] => exact absurd rfl h
  | b :: t =>
    simp [debugger_state.finalize_callstack, modify_head_length]

/-- Claim C5 (amended): starting from the initial client debugger state, any
sequence of `clear_callstack`, `add_callstack` and `finalize_callstack`
operations in which `finalize_callstack` is only applied to a stack holding
at least two entries leaves the call stack with at least one entry. -/
theorem callstack_never_empty (s : debugger_state)
    (h : Relation.ReflTransGen cs_step {} s) : 1 ≤ s.callstack.length := by
  induction h with
  | refl => decide
  | tail hab hstep ih =>
    cases hstep with
    | clear => rw [clear_callstack_length]
    | add n => rw [add_callstack_length]; omega
    | finalize hlen =>
      rw [finalize_callstack_length _ (by intro he; rw [he] at hlen; simp at hlen)]
      omega

/-- Witness for C5: the initial state is reachable and satisfies the bound. -/
theorem callstack_never_empty_witness :
    1 ≤ (({} : debugger_state)).callstack.length :=
  callstack_never_empty {} Relation.ReflTransGen.refl

/-- Claim C5 (counterexample to the unguarded claim): applying
`finalize_callstack` directly to the initial single-frame state - a legal
"sequence of clear_callstack, add_callstack, finalize_callstack operations" -
pops the only entry and leaves the call stack empty. -/
theorem finalize_empties_singleton_callstack :
    (({} : debugger_state).finalize_callstack).callstack.length = 0 := by
  decide

/-- Claim C9 (counterexample): `"abc"` does not have the well-formed shape
`"Name ( Type, Address )"` - it contains no parenthesis at all - yet
`split_watch_name` does not return the fallback pair: the `size_t` value
`npos` passes the `idx >= 2` test and the parser returns the butchered pair
`("abc", "bc")`. -/
theorem split_watch_name_fallback_refuted :
    split_watch_name "abc".toList = some ("abc".toList, "bc".toList) ∧
      ("abc".toList, "bc".toList) ≠ (unknown_name, unknown_type) ∧
      '(' ∉ "abc".toList := by
  decide

theorem find_char_append (c : Char) (l₁ l₂ : List Char) (h : c ∉ l₁) :
    find_char c (l₁ ++ l₂) = (find_char c l₂).map (· + l₁.length) := by
  induction l₁ with
  | nil =>
    cases h2 : find_char c l₂ <;> simp [h2]
  | cons x xs ih =>
    simp only [List.mem_cons, not_or] at h
    have hx : ¬ x = c := fun hxc => h.1 hxc.symm
    cases h2 : find_char c l₂ <;>
      simp [find_char, if_neg hx, ih h.2, h2, Nat.add_assoc]

theorem take_append_of_length (n : Nat) (l₁ l₂ : List Char) (h : l₁.length = n) :
    (l₁ ++ l₂).take n = l₁ := by
  subst h
  exact List.take_left l₁ l₂

theorem drop_append_of_length (n : Nat) (l₁ l₂ : List Char) (h : l₁.length = n) :
    (l₁ ++ l₂).drop n = l₂ := by
  subst h
  exact List.drop_left l₁ l₂

/-- Claim C9 (amended): for a well-formed host watch name
`"Name ( Type, Address )"` (non-empty name without `'('`, type without
`','`), the parser extracts the name and type and discards the address; the
fallback pair is returned exactly for the inputs whose first `'('` occurs at
position 0 or 1, not for every malformed input. -/
theorem split_watch_name_amended :
    (∀ name type addr : List Char, name ≠ [] → '(' ∉ name → ',' ∉ type →
      name.length + 3 < 2 ^ 64 →
      split_watch_name
        (name ++ [' ', '(', ' '] ++ type ++ [',', ' '] ++ addr ++ [' ', ')']) =
        some (name, type)) ∧
    (∀ s : List Char, find_result '(' s < 2 →
      split_watch_name s = some (unknown_name, unknown_type)) := by
  constructor
  · intro name type addr hne hnp hnc hlen
    have hne' : 1 ≤ name.length := List.length_pos.mpr hne
    have hassoc : name ++ [' ', '(', ' '] ++ type ++ [',', ' '] ++ addr ++ [' ', ')'] =
        name ++ ([' ', '(', ' '] ++ (type ++ ([',', ' '] ++ (addr ++ [' ', ')'])))) := by
      simp
    rw [hassoc]
    have hfind : find_result '('
        (name ++ ([' ', '(', ' '] ++ (type ++ ([',', ' '] ++ (addr ++ [' ', ')']))))) =
        name.length + 1 := by
      rw [find_result, find_char_append _ _ _ hnp]
      simp [find_char, Nat.add_comm]
    simp only [split_watch_name, hfind]
    rw [if_pos (by omega)]
    have hpos : (name.length + 1 + 2) % 2 ^ 64 = name.length + 3 :=
      Nat.mod_eq_of_lt (by omega)
    rw [hpos, Nat.add_sub_cancel]
    have hlen2 : ¬ (name ++ ([' ', '(', ' '] ++ (type ++ ([',', ' '] ++
        (addr ++ [' ', ')']))))).length < name.length + 3 := by
      simp only [List.length_append, List.length_cons, List.length_nil]
      omega
    rw [if_neg hlen2]
    have htake : (name ++ ([' ', '(', ' '] ++ (type ++ ([',', ' '] ++
        (addr ++ [' ', ')']))))).take name.length = name := List.take_left name _
    have hdrop : (name ++ ([' ', '(', ' '] ++ (type ++ ([',', ' '] ++
        (addr ++ [' ', ')']))))).drop (name.length + 3) =
        type ++ ([',', ' '] ++ (addr ++ [' ', ')'])) := by
      rw [show name ++ ([' ', '(', ' '] ++ (type ++ ([',', ' '] ++ (addr ++ [' ', ')'])))) =
        (name ++ [' ', '(', ' ']) ++ (type ++ ([',', ' '] ++ (addr ++ [' ', ')']))) by simp]
      exact drop_append_of_length _ _ _ (by simp)
    rw [htake, hdrop]
    have hcomma : find_result ','
        (type ++ ([',', ' '] ++ (addr ++ [' ', ')']))) = type.length := by
      rw [find_result, find_char_append _ _ _ hnc]
      simp [find_char, Nat.add_comm]
    rw [hcomma, take_append_of_length _ _ _ rfl]
  · intro s h
    simp only [split_watch_name]
    rw [if_neg (by omega)]

/-- Witness for the amended C9 statement, at a well-formed name and at an
input whose parenthesis sits at position 0. -/
theorem split_watch_name_amended_witness :
    ("var".toList ≠ [] ∧ '(' ∉ "var".toList ∧ ',' ∉ "Int".toList ∧
      ("var".toList : List Char).length + 3 < 2 ^ 64 ∧
      split_watch_name ("var".toList ++ [' ', '(', ' '] ++ "Int".toList ++ [',', ' '] ++
        "0x12".toList ++ [' ', ')']) = some ("var".toList, "Int".toList)) ∧
    (find_result '(' ['(', 'a'] < 2 ∧
      split_watch_name ['(', 'a'] = some (unknown_name, unknown_type)) :=
  ⟨⟨by decide, by decide, by decide, by decide,
    split_watch_name_amended.1 _ _ _ (by decide) (by decide) (by decide) (by decide)⟩,
   ⟨by decide, split_watch_name_amended.2 _ (by decide)⟩⟩

theorem add_breakpoint_map_idem (u : List Char) (l : Int)
    (m : List (List Char × List Int)) :
    add_breakpoint_map u l (add_breakpoint_map u l m) = add_breakpoint_map u l m := by
  induction m with
  | nil => simp [add_breakpoint_map]
  | cons kv rest ih =>
    obtain ⟨k, v⟩ := kv
    by_cases hk : k = u
    · by_cases hl : l ∈ v
      · simp [add_breakpoint_map, hk, hl]
      · simp [add_breakpoint_map, hk, hl]
    · simp [add_breakpoint_map, hk, ih]

theorem add_breakpoint_map_mem (u : List Char) (l : Int)
    (m : List (List Char × List Int)) :
    ∃ v, lookup_bp u (add_breakpoint_map u l m) = some v ∧ l ∈ v := by
  induction m with
  | nil => exact ⟨[l], by simp [add_breakpoint_map, lookup_bp]⟩
  | cons kv rest ih =>
    obtain ⟨k, v⟩ := kv
    by_cases hk : k = u
    · by_cases hl : l ∈ v
      · exact ⟨v, by simp [add_breakpoint_map, lookup_bp, hk, hl]⟩
      · exact ⟨v ++ [l], by simp [add_breakpoint_map, lookup_bp, hk, hl]⟩
    · obtain ⟨w, hw, hlw⟩ := ih
      exact ⟨w, by simp [add_breakpoint_map, lookup_bp, hk, hw], hlw⟩

/-- Claim C10: `debugger_state::add_breakpoint` is idempotent - adding the
same class/line twice from any state leaves the breakpoint index exactly as
adding it once - and the entry is stored under the upper-cased class name,
which is also the key `get_breakpoints` looks up. -/
theorem add_breakpoint_idempotent_and_upcased (s : debugger_state)
    (c : List Char) (l : Int) :
    (s.add_breakpoint c l).add_breakpoint c l = s.add_breakpoint c l ∧
    (∃ v, lookup_bp (to_upper c) (s.add_breakpoint c l).breakpoints = some v ∧ l ∈ v) ∧
    (∀ d : List Char, (s.add_breakpoint c l).get_breakpoints d =
      lookup_bp (to_upper d) (s.add_breakpoint c l).breakpoints) := by
  refine ⟨?_, add_breakpoint_map_mem _ _ _, fun d => rfl⟩
  simp [debugger_state.add_breakpoint, add_breakpoint_map_idem]

end client

/-! ## Wire codec

From `src/common/message.h`, `src/common/commands.h` and
`src/common/events.h`.  A message is a byte buffer (`List Nat`, little
endian); `int` fields are written as their 4-byte two's-complement image and
`bool` fields as one byte; strings are a 32-bit length followed by their raw
bytes, with no terminator.  `sizeof(command_kind) = sizeof(event_kind) = 1`,
`sizeof(int) = 4`, `sizeof(bool) = 1`. -/

namespace serialization

/-- Little-endian image of a 32-bit unsigned value. -/
def ser_u32 (n : Nat) : List Nat :=
  [n % 256, n / 256 % 256, n / 65536 % 256, n / 16777216 % 256]

/-- `serialize_int`: the 4-byte little-endian two's-complement image. -/
def ser_int (v : Int) : List Nat := ser_u32 (v % 4294967296).toNat

/-- `serialize_bool`. -/
def ser_bool (b : Bool) : List Nat := [if b then 1 else 0]

/-- `serialize_string`: 32-bit length then the raw bytes. -/
def ser_string (str : List Nat) : List Nat := ser_u32 str.length ++ str

/-- Read 4 little-endian bytes; `none` when the buffer is too short. -/
def de_u32 : List Nat → Option (Nat × List Nat)
  | b0 :: b1 :: b2 :: b3 :: rest =>
    some (b0 + b1 * 256 + b2 * 65536 + b3 * 16777216, rest)
  | _ => none

/-- `deserialize_int`: 4 bytes as a signed 32-bit value. -/
def de_int (l : List Nat) : Option (Int × List Nat) :=
  (de_u32 l).map (fun p =>
    (if p.1 < 2147483648 then (p.1 : Int) else (p.1 : Int) - 4294967296, p.2))

/-- `deserialize_bool`: one byte, non-zero is `true`. -/
def de_bool : List Nat → Option (Bool × List Nat)
  | b :: rest => some (b != 0, rest)
  | [] => none

/-- `deserialize_string`: read the 32-bit length, then that many raw bytes.
A negative length or a length beyond the buffer would make
`std::string(buf, len)` read out of bounds; both are modelled as `none`. -/
def de_string (l : List Nat) : Option (List Nat × List Nat) :=
  (de_int l).bind (fun p =>
    if p.1 < 0 then none
    else if p.2.length < p.1.toNat then none
    else some (p.2.take p.1.toNat, p.2.drop p.1.toNat))

theorem ser_u32_length (n : Nat) : (ser_u32 n).length = 4 := rfl

theorem ser_int_length (v : Int) : (ser_int v).length = 4 := rfl

theorem ser_bool_length (b : Bool) : (ser_bool b).length = 1 := by cases b <;> rfl

theorem ser_string_length (str : List Nat) : (ser_string str).length = 4 + str.length := by
  simp [ser_string, ser_u32]
  omega

theorem de_u32_ser_u32 (n : Nat) (r : List Nat) (h : n < 4294967296) :
    de_u32 (ser_u32 n ++ r) = some (n, r) := by
  simp only [ser_u32, List.cons_append, List.nil_append, de_u32, Option.some.injEq,
    Prod.mk.injEq, and_true]
  omega

theorem de_int_ser_int (v : Int) (r : List Nat)
    (h1 : -2147483648 ≤ v) (h2 : v < 2147483648) :
    de_int (ser_int v ++ r) = some (v, r) := by
  have hlt : (v % 4294967296).toNat < 4294967296 := by omega
  rw [ser_int, de_int, de_u32_ser_u32 _ _ hlt, Option.map_some']
  have : (if ((v % 4294967296).toNat : Nat) < 2147483648
      then (((v % 4294967296).toNat : Nat) : Int)
      else (((v % 4294967296).toNat : Nat) : Int) - 4294967296) = v := by
    split <;> omega
  rw [this]

theorem de_int_ser_int_nil (v : Int)
    (h1 : -2147483648 ≤ v) (h2 : v < 2147483648) :
    de_int (ser_int v) = some (v, []) := by
  rw [← List.append_nil (ser_int v)]
  exact de_int_ser_int v [] h1 h2

theorem de_bool_ser_bool (b : Bool) (r : List Nat) :
    de_bool (ser_bool b ++ r) = some (b, r) := by
  cases b <;> simp [ser_bool, de_bool]

theorem de_bool_ser_bool_nil (b : Bool) : de_bool (ser_bool b) = some (b, []) := by
  rw [← List.append_nil (ser_bool b)]
  exact de_bool_ser_bool b []

theorem de_string_ser_string (str : List Nat) (r : List Nat)
    (h : str.length < 2147483648) :
    de_string (ser_string str ++ r) = some (str, r) := by
  rw [ser_string, de_string, List.append_assoc]
  have hint : de_int (ser_u32 str.length ++ (str ++ r)) =
      some ((str.length : Int), str ++ r) := by
    have := de_int_ser_int (str.length : Int) (str ++ r) (by omega) (by omega)
    rw [ser_int] at this
    have heq : ((str.length : Int) % 4294967296).toNat = str.length := by omega
    rw [heq] at this
    exact this
  rw [hint, Option.some_bind]
  rw [if_neg (by omega), if_neg (by simp)]
  simp [List.take_left, List.drop_left]

theorem de_string_ser_string_nil (str : List Nat) (h : str.length < 2147483648) :
    de_string (ser_string str) = some (str, []) := by
  rw [← List.append_nil (ser_string str)]
  exact de_string_ser_string str [] h

namespace commands

/-- The typed commands (`src/common/commands.h`), one constructor per
`command_kind`, carrying the fields of the corresponding `struct`. -/
inductive command where
  | add_breakpoint (class_name : List Nat) (line_number : Int)
  | remove_breakpoint (class_name : List Nat) (line_number : Int)
  | add_watch (var_name : List Nat)
  | remove_watch (var_name : List Nat)
  | clear_watch
  | change_stack (stack_id : Int)
  | set_data_watch (var_name : List Nat)
  | break_on_none (break_value : Bool)
  | break_cmd
  | stop_debugging
  | go
  | step_into
  | step_over
  | step_out_of
  | toggle_watch_info (send_watch_info : Bool)
deriving DecidableEq

/-- The declared message length `len_` computed in each `serialize`
implementation. -/
def command.len : command → Nat
  | .add_breakpoint c _ => 1 + 4 + c.length + 4
  | .remove_breakpoint c _ => 1 + 4 + c.length + 4
  | .add_watch v => 1 + 4 + v.length
  | .remove_watch v => 1 + 4 + v.length
  | .clear_watch => 1
  | .change_stack _ => 1 + 4
  | .set_data_watch v => 1 + 4 + v.length
  | .break_on_none _ => 1 + 1
  | .break_cmd => 1
  | .stop_debugging => 1
  | .go => 1
  | .step_into => 1
  | .step_over => 1
  | .step_out_of => 1
  | .toggle_watch_info _ => 1 + 1

/-- `command::serialize`: the tag byte (the `command_kind` value in
declaration order) followed by the kind-specific fields. -/
def command.serialize : command → List Nat
  | .add_breakpoint c l => 0 :: (ser_string c ++ ser_int l)
  | .remove_breakpoint c l => 1 :: (ser_string c ++ ser_int l)
  | .add_watch v => 2 :: ser_string v
  | .remove_watch v => 3 :: ser_string v
  | .clear_watch => [4]
  | .change_stack i => 5 :: ser_int i
  | .set_data_watch v => 6 :: ser_string v
  | .break_on_none b => 7 :: ser_bool b
  | .break_cmd => [8]
  | .stop_debugging => [9]
  | .go => [10]
  | .step_into => [11]
  | .step_over => [12]
  | .step_out_of => [13]
  | .toggle_watch_info b => 14 :: ser_bool b

/-- `dispatch_command` (`src/interface/commands.cpp`) combined with the
message-constructors of `src/common/commands.h`: read the tag byte, then the
fields of that kind. -/
def deserialize_command (msg : List Nat) : Option (command × List Nat) :=
  match msg with
  | [] => none
  | k :: rest =>
    if k = 0 then do
      let (c, r) ← de_string rest
      let (l, r) ← de_int r
      some (command.add_breakpoint c l, r)
    else if k = 1 then do
      let (c, r) ← de_string rest
      let (l, r) ← de_int r
      some (command.remove_breakpoint c l, r)
    else if k = 2 then do
      let (v, r) ← de_string rest
      some (command.add_watch v, r)
    else if k = 3 then do
      let (v, r) ← de_string rest
      some (command.remove_watch v, r)
    else if k = 4 then
      some (command.clear_watch, rest)
    else if k = 5 then do
      let (i, r) ← de_int rest
      some (command.change_stack i, r)
    else if k = 6 then do
      let (v, r) ← de_string rest
      some (command.set_data_watch v, r)
    else if k = 7 then do
      let (b, r) ← de_bool rest
      some (command.break_on_none b, r)
    else if k = 8 then
      some (command.break_cmd, rest)
    else if k = 9 then
      some (command.stop_debugging, rest)
    else if k = 10 then
      some (command.go, rest)
    else if k = 11 then
      some (command.step_into, rest)
    else if k = 12 then
      some (command.step_over, rest)
    else if k = 13 then
      some (command.step_out_of, rest)
    else if k = 14 then do
      let (b, r) ← de_bool rest
      some (command.toggle_watch_info b, r)
    else none

/-- Side conditions under which the 32-bit fields are faithfully
representable: every `int` field is in 32-bit signed range, and every string
fits a non-negative 32-bit length. -/
def command.wf : command → Prop
  | .add_breakpoint c l =>
      c.length < 2147483648 ∧ -2147483648 ≤ l ∧ l < 2147483648
  | .remove_breakpoint c l =>
      c.length < 2147483648 ∧ -2147483648 ≤ l ∧ l < 2147483648
  | .add_watch v => v.length < 2147483648
  | .remove_watch v => v.length < 2147483648
  | .change_stack i => -2147483648 ≤ i ∧ i < 2147483648
  | .set_data_watch v => v.length < 2147483648
  | _ => True

theorem command_round_trip (c : command) (h : c.wf) :
    deserialize_command c.serialize = some (c, []) ∧ c.serialize.length = c.len := by
  cases c <;>
    simp_all [command.wf, command.serialize, command.len, deserialize_command,
      de_string_ser_string, de_string_ser_string_nil, de_int_ser_int, de_int_ser_int_nil,
      de_bool_ser_bool_nil, ser_string_length, ser_int_length, ser_bool_length, bind] <;>
    omega

end commands

namespace events

/-- `struct watch` (`src/common/events.h`): one entry of an `unlock_list`
batch. -/
structure watch where
  parent_index : Int
  assigned_index : Int
  name : List Nat
  value : List Nat
deriving DecidableEq

/-- `watch::size`: the serialized size of a watch. -/
def watch.size (w : watch) : Nat := 4 + 4 + (4 + w.name.length) + (4 + w.value.length)

/-- `watch::serialize`. -/
def ser_watch (w : watch) : List Nat :=
  ser_int w.parent_index ++ ser_int w.assigned_index ++ ser_string w.name ++
    ser_string w.value

/-- The deserializing `watch` constructor. -/
def de_watch (l : List Nat) : Option (watch × List Nat) := do
  let (p, r) ← de_int l
  let (a, r) ← de_int r
  let (n, r) ← de_string r
  let (v, r) ← de_string r
  some (⟨p, a, n, v⟩, r)

/-- The watch portion of a serialized `unlock_list`. -/
def ser_watches (ws : List watch) : List Nat := (ws.map ser_watch).flatten

/-- Reading `count` watches in order. -/
def de_watches : Nat → List Nat → Option (List watch × List Nat)
  | 0, l => some ([], l)
  | n + 1, l => do
    let (w, r) ← de_watch l
    let (ws, r2) ← de_watches n r
    some (w :: ws, r2)

/-- 32-bit representability of a watch's fields. -/
def watch.wf (w : watch) : Prop :=
  -2147483648 ≤ w.parent_index ∧ w.parent_index < 2147483648 ∧
  -2147483648 ≤ w.assigned_index ∧ w.assigned_index < 2147483648 ∧
  w.name.length < 2147483648 ∧ w.value.length < 2147483648

theorem ser_watch_length (w : watch) : (ser_watch w).length = w.size := by
  simp [ser_watch, watch.size, ser_string_length, ser_int_length]
  omega

theorem de_watch_ser_watch (w : watch) (r : List Nat) (h : w.wf) :
    de_watch (ser_watch w ++ r) = some (w, r) := by
  obtain ⟨p, a, n, v⟩ := w
  obtain ⟨h1, h2, h3, h4, h5, h6⟩ := h
  simp [ser_watch, de_watch, List.append_assoc, de_int_ser_int, de_string_ser_string,
    h1, h2, h3, h4, h5, h6, bind]

theorem de_watches_ser_watches (ws : List watch) (r : List Nat)
    (h : ∀ w ∈ ws, w.wf) :
    de_watches ws.length (ser_watches ws ++ r) = some (ws, r) := by
  induction ws generalizing r with
  | nil => simp [ser_watches, de_watches]
  | cons w ws ih =>
    have hw : w.wf := h w (by simp)
    have hws : ∀ x ∈ ws, x.wf := fun x hx => h x (by simp [hx])
    have hsw : ser_watches (w :: ws) = ser_watch w ++ ser_watches ws := by
      simp [ser_watches]
    rw [List.length_cons, hsw, List.append_assoc]
    simp only [de_watches, bind]
    rw [de_watch_ser_watch w _ hw]
    simp only [Option.some_bind]
    rw [ih r hws]
    rfl

/-- The typed events (`src/common/events.h`), one constructor per
`event_kind`, carrying the fields of the corresponding `struct`. -/
inductive event where
  | show_dll_form
  | build_hierarchy
  | clear_hierarchy
  | add_class_to_hierarchy (class_name : List Nat)
  | lock_list (watch_type : Int)
  | unlock_list (watch_type : Int) (watch_info : List watch)
  | clear_a_watch (watch_type : Int)
  | add_breakpoint (class_name : List Nat) (line_number : Int)
  | remove_breakpoint (class_name : List Nat) (line_number : Int)
  | editor_load_class (class_name : List Nat)
  | editor_goto_line (line_number : Int) (highlight : Bool)
  | add_line_to_log (text : List Nat)
  | call_stack_clear
  | call_stack_add (entry : List Nat)
  | set_current_object_name (object_name : List Nat)
  | terminated
deriving DecidableEq

/-- The declared message length `len_` of each `serialize` implementation
(`serialized_length(s) = sizeof(int) + s.size()`). -/
def event.len : event → Nat
  | .show_dll_form => 1
  | .build_hierarchy => 1
  | .clear_hierarchy => 1
  | .add_class_to_hierarchy c => 1 + (4 + c.length)
  | .lock_list _ => 1 + 4
  | .unlock_list _ ws => 1 + 4 + 4 + (ws.map watch.size).sum
  | .clear_a_watch _ => 1 + 4
  | .add_breakpoint c _ => 1 + (4 + c.length) + 4
  | .remove_breakpoint c _ => 1 + (4 + c.length) + 4
  | .editor_load_class c => 1 + (4 + c.length)
  | .editor_goto_line _ _ => 1 + 4 + 1
  | .add_line_to_log t => 1 + (4 + t.length)
  | .call_stack_clear => 1
  | .call_stack_add e => 1 + (4 + e.length)
  | .set_current_object_name n => 1 + (4 + n.length)
  | .terminated => 1

/-- `event::serialize`: the tag byte (the `event_kind` value in declaration
order) followed by the kind-specific fields; `unlock_list` writes its watch
type, the watch count as an `int`, then each buffered watch. -/
def event.serialize : event → List Nat
  | .show_dll_form => [0]
  | .build_hierarchy => [1]
  | .clear_hierarchy => [2]
  | .add_class_to_hierarchy c => 3 :: ser_string c
  | .lock_list t => 4 :: ser_int t
  | .unlock_list t ws => 5 :: (ser_int t ++ ser_int (ws.length : Int) ++ ser_watches ws)
  | .clear_a_watch t => 6 :: ser_int t
  | .add_breakpoint c l => 7 :: (ser_string c ++ ser_int l)
  | .remove_breakpoint c l => 8 :: (ser_string c ++ ser_int l)
  | .editor_load_class c => 9 :: ser_string c
  | .editor_goto_line l hl => 10 :: (ser_int l ++ ser_bool hl)
  | .add_line_to_log t => 11 :: ser_string t
  | .call_stack_clear => [12]
  | .call_stack_add e => 13 :: ser_string e
  | .set_current_object_name n => 14 :: ser_string n
  | .terminated => [15]

/-- `dispatch_event` (`src/adapter/events.cpp`) combined with the
message-constructors of `src/common/events.h`: read the tag byte, then the
fields of that kind; `unlock_list` reads its count and then that many
watches (a negative count reads none, as the C++ `for` loop does not run). -/
def deserialize_event (msg : List Nat) : Option (event × List Nat) :=
  match msg with
  | [] => none
  | k :: rest =>
    if k = 0 then some (event.show_dll_form, rest)
    else if k = 1 then some (event.build_hierarchy, rest)
    else if k = 2 then some (event.clear_hierarchy, rest)
    else if k = 3 then do
      let (c, r) ← de_string rest
      some (event.add_class_to_hierarchy c, r)
    else if k = 4 then do
      let (t, r) ← de_int rest
      some (event.lock_list t, r)
    else if k = 5 then do
      let (t, r) ← de_int rest
      let (cnt, r) ← de_int r
      let (ws, r) ← de_watches cnt.toNat r
      some (event.unlock_list t ws, r)
    else if k = 6 then do
      let (t, r) ← de_int rest
      some (event.clear_a_watch t, r)
    else if k = 7 then do
      let (c, r) ← de_string rest
      let (l, r) ← de_int r
      some (event.add_breakpoint c l, r)
    else if k = 8 then do
      let (c, r) ← de_string rest
      let (l, r) ← de_int r
      some (event.remove_breakpoint c l, r)
    else if k = 9 then do
      let (c, r) ← de_string rest
      some (event.editor_load_class c, r)
    else if k = 10 then do
      let (l, r) ← de_int rest
      let (hl, r) ← de_bool r
      some (event.editor_goto_line l hl, r)
    else if k = 11 then do
      let (t, r) ← de_string rest
      some (event.add_line_to_log t, r)
    else if k = 12 then some (event.call_stack_clear, rest)
    else if k = 13 then do
      let (e, r) ← de_string rest
      some (event.call_stack_add e, r)
    else if k = 14 then do
      let (n, r) ← de_string rest
      some (event.set_current_object_name n, r)
    else if k = 15 then some (event.terminated, rest)
    else none

/-- 32-bit representability of an event's fields. -/
def event.wf : event → Prop
  | .add_class_to_hierarchy c => c.length < 2147483648
  | .lock_list t => -2147483648 ≤ t ∧ t < 2147483648
  | .unlock_list t ws =>
      (-2147483648 ≤ t ∧ t < 2147483648) ∧ ws.length < 2147483648 ∧
        ∀ w ∈ ws, w.wf
  | .clear_a_watch t => -2147483648 ≤ t ∧ t < 2147483648
  | .add_breakpoint c l =>
      c.length < 2147483648 ∧ -2147483648 ≤ l ∧ l < 2147483648
  | .remove_breakpoint c l =>
      c.length < 2147483648 ∧ -2147483648 ≤ l ∧ l < 2147483648
  | .editor_load_class c => c.length < 2147483648
  | .editor_goto_line l _ => -2147483648 ≤ l ∧ l < 2147483648
  | .add_line_to_log t => t.length < 2147483648
  | .call_stack_add e => e.length < 2147483648
  | .set_current_object_name n => n.length < 2147483648
  | _ => True

theorem ser_watches_length (ws : List watch) :
    (ser_watches ws).length = (ws.map watch.size).sum := by
  induction ws with
  | nil => rfl
  | cons w ws ih =>
    simp [ser_watches, ser_watch_length] at ih ⊢
    omega

theorem event_round_trip (e : event) (h : e.wf) :
    deserialize_event e.serialize = some (e, []) ∧ e.serialize.length = e.len := by
  cases e with
  | unlock_list t ws =>
    obtain ⟨⟨ht1, ht2⟩, hlen, hws⟩ := h
    constructor
    · simp only [event.serialize, deserialize_event, List.append_assoc, reduceIte]
      rw [de_int_ser_int _ _ ht1 ht2]
      simp only [Option.some_bind, bind]
      rw [← List.append_nil (ser_watches ws), ← List.append_assoc,
        de_int_ser_int _ _ (by omega) (by omega)]
      simp only [Option.some_bind, List.append_assoc, List.nil_append]
      rw [show ((ws.length : Int)).toNat = ws.length by omega,
        de_watches_ser_watches ws [] hws]
      rfl
    · simp [event.serialize, event.len, ser_int_length, ser_watches_length]
      omega
  | _ =>
    first
    | exact ⟨rfl, rfl⟩
    | (simp_all [event.wf, event.serialize, event.len, deserialize_event,
        de_string_ser_string, de_string_ser_string_nil, de_int_ser_int,
        de_int_ser_int_nil, de_bool_ser_bool_nil, ser_string_length, ser_int_length,
        ser_bool_length, bind] <;> omega)

end events

/-- Claim C4: for every command and event kind (with 32-bit-representable
fields), deserializing the serialized message yields exactly the original
value with the whole buffer consumed, and the serialized size equals the
declared length `len_` - i.e. both directions advance the cursor by exactly
`len_`, as the codec's asserts demand. -/
theorem serialization_round_trip :
    (∀ c : commands.command, c.wf →
      commands.deserialize_command c.serialize = some (c, []) ∧
        c.serialize.length = c.len) ∧
    (∀ e : events.event, e.wf →
      events.deserialize_event e.serialize = some (e, []) ∧
        e.serialize.length = e.len) :=
  ⟨commands.command_round_trip, events.event_round_trip⟩

/-- Witness for C4 at a concrete command and a concrete `unlock_list`
event. -/
theorem serialization_round_trip_witness :
    (commands.deserialize_command
        (commands.command.add_breakpoint [80, 46, 65] 10).serialize =
      some (commands.command.add_breakpoint [80, 46, 65] 10, []) ∧
      (commands.command.add_breakpoint [80, 46, 65] 10).serialize.length =
        (commands.command.add_breakpoint [80, 46, 65] 10).len) ∧
    (events.deserialize_event
        (events.event.unlock_list 0 [⟨-1, 1, [97], [49]⟩]).serialize =
      some (events.event.unlock_list 0 [⟨-1, 1, [97], [49]⟩], []) ∧
      (events.event.unlock_list 0 [⟨-1, 1, [97], [49]⟩]).serialize.length =
        (events.event.unlock_list 0 [⟨-1, 1, [97], [49]⟩]).len) :=
  ⟨serialization_round_trip.1 _
      (show _ ∧ _ ∧ _ from ⟨by decide, by decide, by decide⟩),
   serialization_round_trip.2 _
      (show (_ ∧ _) ∧ _ ∧ _ from
        ⟨⟨by decide, by decide⟩, by decide, by
          intro w hw
          simp only [List.mem_singleton] at hw
          subst hw
          exact ⟨by decide, by decide, by decide, by decide, by decide, by decide⟩⟩)⟩

end serialization

/-! ## In-game interface service

From `src/interface/events.cpp`, `src/interface/commands.cpp`,
`src/interface/service.cpp` and `src/interface/debuggerinterface.cpp`.  Host
strings are raw `char*` buffers, modelled as byte lists; each service entry
point is modelled as a function returning the updated service together with
the list of events it enqueues on the send queue (`send_event`). -/

namespace interface

/-- The integer value Unreal uses for each watch kind, and with which the
service tags its watch events. -/
def watch_kind.code : watch_kind → Int
  | .local => 0
  | .global => 1
  | .user => 2

/-- `class debugger_service` (`src/interface/service.h`): the per-kind watch
index counters (constructed as `{1, 1, 1}`), the per-kind buffered
`unlock_list` batches, and the watch-info toggle (initially on). -/
structure debugger_service where
  watch_indices : watch_kind → Int := fun _ => 1
  pending_unlocks : watch_kind → Option (List serialization.events.watch) := fun _ => none
  send_watch_info : Bool := true

/-- `DebuggerService::clear_a_watch`: reset the kind's index counter to 1;
when watch info is off, return without emitting; otherwise clear any pending
batch's watch list and emit a `clear_a_watch` event. -/
def svc_clear_a_watch (s : debugger_service) (k : watch_kind) :
    debugger_service × List serialization.events.event :=
  let s := { s with watch_indices := fun j => if j = k then 1 else s.watch_indices j }
  if ¬ s.send_watch_info then (s, [])
  else
    let s := { s with pending_unlocks := fun j =>
      if j = k then (s.pending_unlocks k).map (fun _ => []) else s.pending_unlocks j }
    (s, [.clear_a_watch (watch_kind.code k)])

/-- `DebuggerService::add_a_watch`: assign the next index of the kind and
increment the counter; when watch info is off, just return the index;
otherwise append the watch to the kind's pending batch (the code asserts the
batch exists).  Returns `(service, assigned index, emitted events)` - the
entry never emits by itself, the batch goes out on `unlock_list`. -/
def svc_add_a_watch (s : debugger_service) (k : watch_kind) (parent : Int)
    (name value : List Nat) :
    debugger_service × Int × List serialization.events.event :=
  let idx := s.watch_indices k
  let s := { s with watch_indices := fun j => if j = k then idx + 1 else s.watch_indices j }
  if ¬ s.send_watch_info then (s, idx, [])
  else
    let s := { s with pending_unlocks := fun j =>
      if j = k then (s.pending_unlocks k).map (fun ws => ws ++ [⟨parent, idx, name, value⟩])
      else s.pending_unlocks j }
    (s, idx, [])

/-- `DebuggerService::lock_list`: when watch info is on, open an empty
pending batch for the kind and emit a `lock_list` event. -/
def svc_lock_list (s : debugger_service) (k : watch_kind) :
    debugger_service × List serialization.events.event :=
  if ¬ s.send_watch_info then (s, [])
  else
    let s := { s with pending_unlocks := fun j =>
      if j = k then some [] else s.pending_unlocks j }
    (s, [.lock_list (watch_kind.code k)])

/-- `DebuggerService::unlock_list`: when watch info is on, emit the pending
batch as an `unlock_list` event and drop the batch. -/
def svc_unlock_list (s : debugger_service) (k : watch_kind) :
    debugger_service × List serialization.events.event :=
  if ¬ s.send_watch_info then (s, [])
  else
    let ws := (s.pending_unlocks k).getD []
    let s := { s with pending_unlocks := fun j =>
      if j = k then none else s.pending_unlocks j }
    (s, [.unlock_list (watch_kind.code k) ws])

/-- `DebuggerService::toggle_watch_info` (`src/interface/commands.cpp`): set
the flag and, when turning watch info off, discard every pending batch. -/
def svc_toggle_watch_info (s : debugger_service) (b : Bool) : debugger_service :=
  let s := { s with send_watch_info := b }
  if ¬ b then { s with pending_unlocks := fun _ => none } else s

/-- `n` successive `AddAWatch` calls of the same kind: the final service and
the list of returned indices, in call order. -/
def svc_add_seq (s : debugger_service) (k : watch_kind) (parent : Int)
    (name value : List Nat) : Nat → debugger_service × List Int
  | 0 => (s, [])
  | m + 1 =>
    let r := svc_add_a_watch s k parent name value
    let rest := svc_add_seq r.1 k parent name value m
    (rest.1, r.2.1 :: rest.2)

theorem svc_add_a_watch_index (s : debugger_service) (k : watch_kind) (p : Int)
    (n v : List Nat) :
    (svc_add_a_watch s k p n v).2.1 = s.watch_indices k ∧
    (svc_add_a_watch s k p n v).1.watch_indices k = s.watch_indices k + 1 := by
  unfold svc_add_a_watch
  by_cases hs : s.send_watch_info <;> simp [hs]

theorem svc_add_seq_indices (k : watch_kind) (p : Int) (n v : List Nat) :
    ∀ (m : Nat) (s : debugger_service),
    (svc_add_seq s k p n v m).2 =
      (List.range m).map (fun (j : Nat) => s.watch_indices k + (j : Int)) := by
  intro m
  induction m with
  | zero => intro s; simp [svc_add_seq]
  | succ m ih =>
    intro s
    obtain ⟨hidx, hinc⟩ := svc_add_a_watch_index s k p n v
    simp only [svc_add_seq, ih, hidx, hinc, List.range_succ_eq_map, List.map_cons,
      List.map_map, List.cons.injEq]
    refine ⟨by omega, ?_⟩
    apply List.map_congr_left
    intro j hj
    simp only [Function.comp_apply]
    omega

/-- Claim C7: while `send_watch_info_` is off, `lock_list`, `unlock_list`,
`clear_a_watch` and `add_a_watch` enqueue nothing (the send queue is
unchanged), yet `clear_a_watch` still resets the kind's counter to 1,
`add_a_watch` still returns the current counter and increments it, and `m`
successive `add_a_watch` calls after a `clear_a_watch` return the
consecutive indices `1, 2, ..., m`. -/
theorem watch_info_suppressed (s : debugger_service) (k : watch_kind) (p : Int)
    (n v : List Nat) (m : Nat) (h : s.send_watch_info = false) :
    (svc_lock_list s k).2 = [] ∧
    (svc_unlock_list s k).2 = [] ∧
    (svc_clear_a_watch s k).2 = [] ∧
    (svc_add_a_watch s k p n v).2.2 = [] ∧
    (svc_clear_a_watch s k).1.watch_indices k = 1 ∧
    (svc_add_a_watch s k p n v).2.1 = s.watch_indices k ∧
    (svc_add_a_watch s k p n v).1.watch_indices k = s.watch_indices k + 1 ∧
    (svc_add_seq (svc_clear_a_watch s k).1 k p n v m).2 =
      (List.range m).map (fun (j : Nat) => (1 : Int) + (j : Int)) := by
  refine ⟨?_, ?_, ?_, ?_, ?_, ?_, ?_, ?_⟩
  · simp [svc_lock_list, h]
  · simp [svc_unlock_list, h]
  · simp [svc_clear_a_watch, h]
  · simp [svc_add_a_watch, h]
  · simp [svc_clear_a_watch, h]
  · exact (svc_add_a_watch_index s k p n v).1
  · exact (svc_add_a_watch_index s k p n v).2
  · rw [svc_add_seq_indices k p n v m]
    have hclear : (svc_clear_a_watch s k).1.watch_indices k = 1 := by
      simp [svc_clear_a_watch, h]
    rw [hclear]

/-- Witness for C7 at a suppressed service and three adds. -/
theorem watch_info_suppressed_witness :
    ({ send_watch_info := false : debugger_service }.send_watch_info = false) ∧
    ((svc_add_seq (svc_clear_a_watch { send_watch_info := false } watch_kind.local).1
        watch_kind.local (-1) [97] [49] 3).2 =
      (List.range 3).map (fun (j : Nat) => (1 : Int) + (j : Int))) :=
  ⟨rfl, (watch_info_suppressed { send_watch_info := false } watch_kind.local (-1)
    [97] [49] 3 rfl).2.2.2.2.2.2.2⟩

/-- `enum class service_state` (`src/interface/service.h`). -/
inductive service_state where
  | stopped
  | disconnected
  | connected
  | shutdown
deriving DecidableEq

/-- The host-facing process state: the global service-state atom, the
(optional) service instance, `ShowDllForm`'s `is_break` static, and the
append-only trace of every event ever enqueued on the send queue. -/
structure host_state where
  sstate : service_state
  svc : Option debugger_service := none
  is_break : Bool := false
  sent : List serialization.events.event := []

/-- `check_service` (`src/interface/service.cpp`): on `stopped` tear the
service down and restart it (`start` leaves the new service
`disconnected`); on `shutdown` tear it down with no restart; return whether
events may be emitted (only when `connected`). -/
def check_service (h : host_state) : Bool × host_state :=
  match h.sstate with
  | .stopped => (false, { h with svc := some {}, sstate := .disconnected })
  | .shutdown => (false, { h with svc := none })
  | .disconnected => (false, h)
  | .connected => (true, h)

/-- Run a service operation, appending whatever it emits to the trace. -/
def with_service (h : host_state)
    (f : debugger_service → debugger_service × List serialization.events.event) :
    host_state :=
  match h.svc with
  | none => h
  | some s => { h with svc := some (f s).1, sent := h.sent ++ (f s).2 }

/-- The sentinel log line that signals debugger shutdown
(`src/interface/debuggerinterface.cpp`). -/
def magic_debugger_stopped_log_entry : List Nat :=
  "Log: Detaching UnrealScript Debugger (currently detached)".toList.map Char.toNat

/-- The exported host entry points (`src/interface/debuggerinterface.cpp`). -/
inductive host_entry where
  | ShowDllForm
  | BuildHierarchy
  | ClearHierarchy
  | AddClassToHierarchy (class_name : List Nat)
  | ClearWatch (k : watch_kind)
  | ClearAWatch (k : watch_kind)
  | AddAWatch (k : watch_kind) (parent : Int) (name value : List Nat)
  | LockList (k : watch_kind)
  | UnlockList (k : watch_kind)
  | AddBreakpoint (class_name : List Nat) (line : Int)
  | RemoveBreakpoint (class_name : List Nat) (line : Int)
  | EditorLoadClass (class_name : List Nat)
  | EditorGotoLine (line : Int) (highlight : Int)
  | AddLineToLog (text : List Nat)
  | CallStackClear
  | CallStackAdd (entry : List Nat)
  | SetCurrentObjectName (object_name : List Nat)
  | DebugWindowState

/-- The `check_service` gate wrapped around every entry point's body. -/
def gated (h : host_state) (f : host_state → host_state) : host_state :=
  let r := check_service h
  if r.1 then f r.2 else r.2

/-- One host entry-point invocation
(`src/interface/debuggerinterface.cpp`).  `ShowDllForm` discards its first
invocation; `AddLineToLog` forwards the line and, when it equals the
sentinel, invokes `DebuggerService::shutdown` (which emits a `terminated`
event and moves the state to `shutdown`) and then re-runs `check_service`;
`DebugWindowState` does nothing at all. -/
def host_step (e : host_entry) (h : host_state) : host_state :=
  match e with
  | .ShowDllForm => gated h (fun h1 =>
      if ¬ h1.is_break then { h1 with is_break := true }
      else with_service h1 (fun s => (s, [.show_dll_form])))
  | .BuildHierarchy => gated h (fun h1 => with_service h1 (fun s => (s, [.build_hierarchy])))
  | .ClearHierarchy => gated h (fun h1 => with_service h1 (fun s => (s, [.clear_hierarchy])))
  | .AddClassToHierarchy c => gated h (fun h1 =>
      with_service h1 (fun s => (s, [.add_class_to_hierarchy c])))
  | .ClearWatch k => gated h (fun h1 => with_service h1 (fun s => svc_clear_a_watch s k))
  | .ClearAWatch k => gated h (fun h1 => with_service h1 (fun s => svc_clear_a_watch s k))
  | .AddAWatch k p n v => gated h (fun h1 =>
      with_service h1 (fun s => ((svc_add_a_watch s k p n v).1, (svc_add_a_watch s k p n v).2.2)))
  | .LockList k => gated h (fun h1 => with_service h1 (fun s => svc_lock_list s k))
  | .UnlockList k => gated h (fun h1 => with_service h1 (fun s => svc_unlock_list s k))
  | .AddBreakpoint c l => gated h (fun h1 =>
      with_service h1 (fun s => (s, [.add_breakpoint c l])))
  | .RemoveBreakpoint c l => gated h (fun h1 =>
      with_service h1 (fun s => (s, [.remove_breakpoint c l])))
  | .EditorLoadClass c => gated h (fun h1 =>
      with_service h1 (fun s => (s, [.editor_load_class c])))
  | .EditorGotoLine l hl => gated h (fun h1 =>
      with_service h1 (fun s => (s, [.editor_goto_line l (hl != 0)])))
  | .AddLineToLog t => gated h (fun h1 =>
      let h2 := with_service h1 (fun s => (s, [.add_line_to_log t]))
      if t = magic_debugger_stopped_log_entry then
        let h3 := with_service h2 (fun s => (s, [.terminated]))
        let h4 := { h3 with sstate := service_state.shutdown }
        (check_service h4).2
      else h2)
  | .CallStackClear => gated h (fun h1 => with_service h1 (fun s => (s, [.call_stack_clear])))
  | .CallStackAdd en => gated h (fun h1 => with_service h1 (fun s => (s, [.call_stack_add en])))
  | .SetCurrentObjectName n => gated h (fun h1 =>
      with_service h1 (fun s => (s, [.set_current_object_name n])))
  | .DebugWindowState => h

/-- A sequence of host entry-point invocations, in order. -/
def host_run (es : List host_entry) (h : host_state) : host_state :=
  es.foldl (fun h e => host_step e h) h

theorem host_step_shutdown (e : host_entry) (g : host_state)
    (hg : g.sstate = .shutdown) :
    (host_step e g).sent = g.sent ∧ (host_step e g).sstate = .shutdown := by
  cases e <;> simp [host_step, gated, check_service, hg]

/-- Claim C8: on a connected service, `AddLineToLog` with the exact sentinel
text enqueues the `add_line_to_log` event, then a `terminated` event, and
moves the service state to `shutdown`; and from the `shutdown` state
`check_service` never again returns true, so no sequence of further host
entry-point invocations ever enqueues another event or leaves `shutdown`. -/
theorem shutdown_sentinel (h : host_state) (s0 : debugger_service)
    (hc : h.sstate = .connected) (hs : h.svc = some s0) :
    ((host_step (.AddLineToLog magic_debugger_stopped_log_entry) h).sent =
        h.sent ++ [.add_line_to_log magic_debugger_stopped_log_entry, .terminated] ∧
      (host_step (.AddLineToLog magic_debugger_stopped_log_entry) h).sstate = .shutdown) ∧
    (∀ g : host_state, g.sstate = .shutdown →
      (check_service g).1 = false ∧
      ∀ es : List host_entry,
        (host_run es g).sent = g.sent ∧ (host_run es g).sstate = .shutdown) := by
  constructor
  · simp [host_step, gated, check_service, hc, hs, with_service]
  · intro g hg
    refine ⟨by simp [check_service, hg], ?_⟩
    intro es
    induction es generalizing g with
    | nil => exact ⟨rfl, hg⟩
    | cons e es ih =>
      obtain ⟨h1, h2⟩ := host_step_shutdown e g hg
      obtain ⟨h3, h4⟩ := ih (host_step e g) h2
      exact ⟨by rw [host_run, List.foldl_cons] at *; rw [h3, h1], h4⟩

/-- Witness for C8 at a freshly connected service and the sentinel line. -/
theorem shutdown_sentinel_witness :
    ((host_step (.AddLineToLog magic_debugger_stopped_log_entry)
        { sstate := .connected, svc := some {} }).sent =
        ([] : List serialization.events.event) ++
          [.add_line_to_log magic_debugger_stopped_log_entry, .terminated] ∧
      (host_step (.AddLineToLog magic_debugger_stopped_log_entry)
        { sstate := .connected, svc := some {} }).sstate = .shutdown) ∧
    (∀ g : host_state, g.sstate = .shutdown →
      (check_service g).1 = false ∧
      ∀ es : List host_entry,
        (host_run es g).sent = g.sent ∧ (host_run es g).sstate = .shutdown) :=
  shutdown_sentinel { sstate := .connected, svc := some {} } {} rfl rfl

end interface

end UnrealDebugger
